import Mathlib

/-!
Verification of the FTP client protocol engine (package `ftp`).

Byte buffers from the Go source (`[]byte`, `string`) are modelled as
`List Char`, one `Char` per byte.  Functions that can panic in Go
(out-of-range slicing) are modelled with `Option`, where `none` marks
the panic.  Stateful orchestration code (downloads, uploads, listings)
is modelled by explicit passing of the session state and of the
outcomes of each transport interaction.
-/

namespace Ftp

/-! ## Reply framing (`isCompleteResponse` and helpers, ftp.go) -/

/-- Go `strings.Split(string(msg), "\r\n")`: split on each
non-overlapping occurrence of the two-byte separator, left to right. -/
def splitCRLF : List Char → List (List Char)
  | [] => [[]]
  | [c] => [[c]]
  | c :: c2 :: rest =>
    if c = '\r' ∧ c2 = '\n' then
      [] :: splitCRLF rest
    else
      match splitCRLF (c2 :: rest) with
      | [] => [[c]]
      | l :: ls => (c :: l) :: ls

/-- Go `isSingleLineResponse`: `len(msg) >= 4 && msg[3] == ' '`. -/
def isSingleLineResponse (msg : List Char) : Bool :=
  decide (4 ≤ msg.length) && decide (msg.getD 3 'x' = ' ')

/-- Go `endsInNewLine`: the last two bytes are `\r` `\n`. -/
def endsInNewLine (msg : List Char) : Bool :=
  if msg.length < 2 then false
  else decide (msg.getD (msg.length - 2) 'x' = '\r') &&
    decide (msg.getD (msg.length - 1) 'x' = '\n')

/-- Go `isCompleteSingleLineResponse`. -/
def isCompleteSingleLineResponse (msg : List Char) : Bool :=
  isSingleLineResponse msg && endsInNewLine msg

/-- Go `isMultiLineResponse`: `len(msg) >= 4 && msg[3] == '-'`. -/
def isMultiLineResponse (msg : List Char) : Bool :=
  decide (4 ≤ msg.length) && decide (msg.getD 3 'x' = '-')

/-- Go `lastLineEndsInSameCodeAsFirstLine`: `first` is segment 0 and
`last` is the second-to-last segment of the CR-LF split. -/
def lastLineEndsInSameCodeAsFirstLine (msg : List Char) : Bool :=
  if (splitCRLF msg).length < 3 then false
  else if ((splitCRLF msg).getD 0 []).length < 3 ∨
      ((splitCRLF msg).getD ((splitCRLF msg).length - 2) []).length < 4 then false
  else decide (((splitCRLF msg).getD ((splitCRLF msg).length - 2) []).take 4 =
    ((splitCRLF msg).getD 0 []).take 3 ++ [' '])

/-- Go `isCompleteMultiLineResponse`. -/
def isCompleteMultiLineResponse (msg : List Char) : Bool :=
  isMultiLineResponse msg && lastLineEndsInSameCodeAsFirstLine msg

/-- Go `isCompleteResponse`. -/
def isCompleteResponse (msg : List Char) : Bool :=
  isCompleteSingleLineResponse msg || isCompleteMultiLineResponse msg

/-! ## The completion rules in the spec's words (§4.1)

These definitions follow the specification text, to be compared with
the code's predicate above. -/

/-- Spec single-line rule: length at least 4, byte index 3 a space,
buffer ends with CR-LF. -/
def specSingleLineRule (b : List Char) : Bool :=
  decide (4 ≤ b.length) && decide (b.getD 3 'x' = ' ') && endsInNewLine b

/-- The last non-empty line among the CR-LF split segments, as the
spec's multi-line rule words it. -/
def lastNonEmptyLine (ls : List (List Char)) : List Char :=
  (ls.filter (fun l => decide (l ≠ []))).getLastD []

/-- Spec multi-line rule, as stated: byte index 3 a hyphen, at least 3
CR-LF segments, the *last non-empty* line begins with the first
line's 3-character code followed by a space. -/
def specMultiLineRule (b : List Char) : Bool :=
  decide (4 ≤ b.length) && decide (b.getD 3 'x' = '-') &&
  decide (3 ≤ (splitCRLF b).length) &&
  decide (3 ≤ ((splitCRLF b).getD 0 []).length) &&
  decide ((lastNonEmptyLine (splitCRLF b)).take 4 =
    ((splitCRLF b).getD 0 []).take 3 ++ [' '])

/-- The claimed completion rule as stated (single or multi line). -/
def specCompleteRule (b : List Char) : Bool :=
  specSingleLineRule b || specMultiLineRule b

/-- Amended multi-line rule: like `specMultiLineRule` but the line that
must begin with the code plus a space is the *second-to-last* CR-LF
segment (the segment before the final one), not the last non-empty
line. -/
def specMultiLineRuleAmended (b : List Char) : Bool :=
  (decide (4 ≤ b.length) && decide (b.getD 3 'x' = '-')) &&
  (decide (3 ≤ (splitCRLF b).length) &&
   (decide (3 ≤ ((splitCRLF b).getD 0 []).length) &&
    decide (((splitCRLF b).getD ((splitCRLF b).length - 2) []).take 4 =
      ((splitCRLF b).getD 0 []).take 3 ++ [' '])))

/-- Amended completion rule. -/
def specCompleteRuleAmended (b : List Char) : Bool :=
  specSingleLineRule b || specMultiLineRuleAmended b

theorem take_four_ne_of_short {S F : List Char} (hF : 3 ≤ F.length)
    (hS : S.length < 4) : S.take 4 ≠ F.take 3 ++ [' '] := by
  intro h
  have hlen := congrArg List.length h
  simp only [List.length_take, List.length_append, List.length_cons,
    List.length_nil] at hlen
  omega

theorem singleLine_eq_specSingle (b : List Char) :
    isCompleteSingleLineResponse b = specSingleLineRule b := by
  unfold isCompleteSingleLineResponse isSingleLineResponse specSingleLineRule
  rw [Bool.and_assoc]

theorem lastLine_eq_chain (msg : List Char) :
    lastLineEndsInSameCodeAsFirstLine msg =
    (decide (3 ≤ (splitCRLF msg).length) &&
     (decide (3 ≤ ((splitCRLF msg).getD 0 []).length) &&
      decide (4 ≤ ((splitCRLF msg).getD ((splitCRLF msg).length - 2) []).length) &&
      decide (((splitCRLF msg).getD ((splitCRLF msg).length - 2) []).take 4 =
        ((splitCRLF msg).getD 0 []).take 3 ++ [' ']))) := by
  unfold lastLineEndsInSameCodeAsFirstLine
  split_ifs with hA hB
  · rw [decide_eq_false (p := 3 ≤ (splitCRLF msg).length) (by omega)]
    simp
  · rcases hB with hB | hB
    · rw [decide_eq_false (p := 3 ≤ ((splitCRLF msg).getD 0 []).length) (by omega)]
      simp
    · rw [decide_eq_false
        (p := 4 ≤ ((splitCRLF msg).getD ((splitCRLF msg).length - 2) []).length)
        (by omega)]
      simp
  · rw [decide_eq_true (p := 3 ≤ (splitCRLF msg).length) (by omega),
      decide_eq_true (p := 3 ≤ ((splitCRLF msg).getD 0 []).length) (by omega),
      decide_eq_true
        (p := 4 ≤ ((splitCRLF msg).getD ((splitCRLF msg).length - 2) []).length)
        (by omega)]
    simp

theorem multiLine_eq_specAmended (b : List Char) :
    isCompleteMultiLineResponse b = specMultiLineRuleAmended b := by
  have habs : ∀ (d4 d5 d6 : Bool), (d4 = true → d6 = true → d5 = true) →
      (d4 && d5 && d6) = (d4 && d6) := by
    intro d4 d5 d6 h
    cases d4 <;> cases d5 <;> cases d6 <;> simp_all
  have hinner :
      (decide (3 ≤ ((splitCRLF b).getD 0 []).length) &&
       decide (4 ≤ ((splitCRLF b).getD ((splitCRLF b).length - 2) []).length) &&
       decide (((splitCRLF b).getD ((splitCRLF b).length - 2) []).take 4 =
         ((splitCRLF b).getD 0 []).take 3 ++ [' '])) =
      (decide (3 ≤ ((splitCRLF b).getD 0 []).length) &&
       decide (((splitCRLF b).getD ((splitCRLF b).length - 2) []).take 4 =
         ((splitCRLF b).getD 0 []).take 3 ++ [' '])) := by
    apply habs
    intro h4 h6
    have hF : 3 ≤ ((splitCRLF b).getD 0 []).length := of_decide_eq_true h4
    have heq : ((splitCRLF b).getD ((splitCRLF b).length - 2) []).take 4 =
        ((splitCRLF b).getD 0 []).take 3 ++ [' '] := of_decide_eq_true h6
    have := congrArg List.length heq
    simp only [List.length_take, List.length_append, List.length_cons,
      List.length_nil] at this
    exact decide_eq_true (by omega)
  unfold isCompleteMultiLineResponse isMultiLineResponse specMultiLineRuleAmended
  rw [lastLine_eq_chain, hinner, Bool.and_assoc]

/-- C1: the claim's completion rule, read literally with "the last
non-empty line", disagrees with `isCompleteResponse`: on the buffer
`"123-a\r\n123 b\r\n\r\n"` the stated rule holds (the last non-empty
line `"123 b"` begins with `"123 "`) but the code judges the reply
incomplete (it inspects the second-to-last CR-LF segment, here empty). -/
theorem claim_C1_counterexample :
    specCompleteRule ("123-a" ++ "\r\n" ++ "123 b" ++ "\r\n" ++ "\r\n").toList = true ∧
    isCompleteResponse ("123-a" ++ "\r\n" ++ "123 b" ++ "\r\n" ++ "\r\n").toList = false := by
  constructor
  · rfl
  · rfl

/-- C1 (amended): `isCompleteResponse b` is true iff `b` satisfies the
single-line rule (length at least 4, byte 3 a space, ends with CR-LF)
or the multi-line rule with "the second-to-last CR-LF segment" in
place of "the last non-empty line"; in particular a continuation line
starting with the start code but not followed by a space does not
complete the reply, and an empty continuation line before the
terminator is allowed. -/
theorem claim_C1_amended :
    (∀ b : List Char, isCompleteResponse b = specCompleteRuleAmended b) ∧
    isCompleteResponse ("123-some text" ++ "\r\n" ++ "123no space" ++ "\r\n").toList = false ∧
    isCompleteResponse ("123-" ++ "\r\n" ++ "" ++ "\r\n" ++ "123 " ++ "\r\n").toList = true := by
  refine ⟨fun b => ?_, rfl, rfl⟩
  unfold isCompleteResponse specCompleteRuleAmended
  rw [singleLine_eq_specSingle, multiLine_eq_specAmended]

/-! ## Response codes (codes file) and reply extractors -/

/-- Go `responseCode` constants (the ones this development needs). -/
def commandOk : List Char := ['2', '0', '0']

def systemStatusOrHelpReply : List Char := ['2', '1', '1']

def directoryStatus : List Char := ['2', '1', '2']

def fileStatus : List Char := ['2', '1', '3']

def helpMessage : List Char := ['2', '1', '4']

def systemName : List Char := ['2', '1', '5']

def serviceReadyForNewUser : List Char := ['2', '2', '0']

def noTransferInProgress : List Char := ['2', '2', '5']

def closingDataConnection : List Char := ['2', '2', '6']

def enteringPassiveMode : List Char := ['2', '2', '7']

def connectionClosed_TransferAborter : List Char := ['4', '2', '6']

/-- Go `responseCode.ok`: length exactly 3 and first character 1 or 2. -/
def respOk (c : List Char) : Bool :=
  if c.length ≠ 3 then false
  else decide (c.getD 0 'x' = '1') || decide (c.getD 0 'x' = '2')

/-- Go `extractCode`: the whole message if `len(msg) <= 3`, else the
first 3 bytes. -/
def extractCode (msg : List Char) : List Char :=
  if msg.length ≤ 3 then msg else msg.take 3

/-- Go `errorMessage`. -/
def errorMessage (command : String) (response : List Char) : String :=
  "FTP server responded to " ++ command ++ " with error: " ++ String.mk response

/-! ## Command/reply engine (`send`, `sendWithoutEmptyString`,
`executeGetResponse`, ftp.go) -/

/-- The line Go `send(words...)` writes:
`strings.Join(words, " ") + "\r\n"`. -/
def sendMsg (words : List String) : String :=
  String.intercalate " " words ++ "\r\n"

/-- The line Go `sendWithoutEmptyString(cmd, arg)` writes: the argument
is omitted entirely when it is the empty string. -/
def sendWithoutEmptyStringMsg (cmd arg : String) : String :=
  if arg = "" then sendMsg [cmd] else sendMsg [cmd, arg]

/-- Go `executeGetResponse(expectedCode, args...)` with the framed
reply passed explicitly: the pair of the command line written by
`send(args...)` and the result (the raw reply on an exact code match,
otherwise the protocol error built from `args[0]` and the reply). -/
def executeGetResponse (expectedCode : List Char) (args : List String)
    (reply : List Char) : String × Except String (List Char) :=
  (sendMsg args,
   if extractCode reply = expectedCode then .ok reply
   else .error (errorMessage (args.headD "") reply))

/-- C2 counterexample: the claim says `executeGetResponse` omits the
arguments entirely (no trailing space) when the sole argument is the
empty string; in the code only `sendWithoutEmptyString` does that,
while `executeGetResponse` joins all arguments with spaces, so with
verb `HELP` and sole argument `""` the line written is
`"HELP \r\n"`, not `"HELP\r\n"`. -/
theorem claim_C2_counterexample :
    (executeGetResponse helpMessage ["HELP", ""] []).1 = "HELP \r\n" ∧
    (executeGetResponse helpMessage ["HELP", ""] []).1 ≠ "HELP" ++ "\r\n" := by
  constructor
  · rfl
  · decide

/-- C2 (amended): `execute`/`executeGetResponse` send the single line
`"<verb> <args...>\r\n"` with the words joined by single spaces (a
sole empty argument therefore leaves a trailing space; the omission of
an empty sole argument is performed by `sendWithoutEmptyString`, which
the optional-argument operations call directly), await exactly one
framed reply, and return success iff the reply's extracted code equals
exactly the expected code; any other code, including other 2xx codes,
yields a protocol error carrying the verb and the full reply text. -/
theorem claim_C2_amended :
    (∀ cmd : String, sendWithoutEmptyStringMsg cmd "" = cmd ++ "\r\n") ∧
    (∀ cmd arg : String, arg ≠ "" →
      sendWithoutEmptyStringMsg cmd arg = cmd ++ " " ++ arg ++ "\r\n") ∧
    (∀ verb arg : String, sendMsg [verb, arg] = verb ++ " " ++ arg ++ "\r\n") ∧
    (∀ (e : List Char) (args : List String) (reply : List Char),
      (executeGetResponse e args reply).1 = sendMsg args) ∧
    (∀ (e : List Char) (verb : String) (rest : List String) (reply : List Char),
      extractCode reply = e →
      (executeGetResponse e (verb :: rest) reply).2 = .ok reply) ∧
    (∀ (e : List Char) (verb : String) (rest : List String) (reply : List Char),
      extractCode reply ≠ e →
      (executeGetResponse e (verb :: rest) reply).2 =
        .error ("FTP server responded to " ++ verb ++ " with error: " ++
          String.mk reply)) ∧
    (executeGetResponse commandOk ["NOOP"]
        ("250 Requested file action okay".toList ++ ['\r', '\n'])).2 =
      .error (errorMessage "NOOP"
        ("250 Requested file action okay".toList ++ ['\r', '\n'])) := by
  refine ⟨fun cmd => ?_, fun cmd arg h => ?_, fun verb arg => ?_,
    fun e args reply => rfl, fun e verb rest reply h => ?_,
    fun e verb rest reply h => ?_, ?_⟩
  · simp only [sendWithoutEmptyStringMsg, sendMsg, if_pos rfl]
    rfl
  · simp [sendWithoutEmptyStringMsg, sendMsg, String.intercalate, h]
    rfl
  · rfl
  · simp [executeGetResponse, h]
  · simp [executeGetResponse, h, errorMessage]
  · rfl

/-- C2 witness. -/
theorem claim_C2_witness :
    sendWithoutEmptyStringMsg "STAT" "dir" = "STAT dir\r\n" ∧
    (executeGetResponse commandOk ["NOOP"] "200 ok\r\n".toList).2 =
      .ok "200 ok\r\n".toList ∧
    (executeGetResponse commandOk ["NOOP"] "500 bad\r\n".toList).2 =
      .error ("FTP server responded to " ++ "NOOP" ++ " with error: " ++
        String.mk "500 bad\r\n".toList) := by
  refine ⟨?_, ?_, ?_⟩
  · have h := claim_C2_amended.2.1 "STAT" "dir" (by decide)
    rw [h]
    rfl
  · exact claim_C2_amended.2.2.2.2.1 commandOk "NOOP" [] "200 ok\r\n".toList
      (by decide)
  · exact claim_C2_amended.2.2.2.2.2.1 commandOk "NOOP" [] "500 bad\r\n".toList
      (by decide)

/-! ## Payload extraction (`removeControlSymbols`, ftp.go)

Go slice expressions panic when out of range; the model returns `none`
exactly where the Go code would panic. -/

/-- Go `strings.TrimSuffix(s, "\r\n")`: drop the final CR-LF if the
string ends with it, once. -/
def trimSuffixCRLF (l : List Char) : List Char :=
  if endsInNewLine l then l.take (l.length - 2) else l

/-- Go `strings.LastIndex(s, "\r\n")`: index of the last occurrence of
the separator, `none` for Go's `-1`. -/
def lastIndexCRLF : List Char → Option Nat
  | [] => none
  | c :: rest =>
    match lastIndexCRLF rest with
    | some i => some (i + 1)
    | none => if c = '\r' ∧ rest.head? = some '\n' then some 0 else none

/-- Go `removeControlSymbols`: drop the 4 leading bytes and one
trailing CR-LF; for a non-single-line reply splice out the last
line's 4 leading bytes (`noCode[:i+2] + noCode[i+6:]` around the last
CR-LF at index `i`, with `i = -1` when there is none) and trim once
more.  `none` marks an out-of-range slice (a Go panic). -/
def removeControlSymbols (resp : List Char) : Option (List Char) :=
  if resp.length < 4 then none
  else
    let noCode := trimSuffixCRLF (resp.drop 4)
    if isSingleLineResponse resp then some noCode
    else
      match lastIndexCRLF noCode with
      | none =>
        if 1 ≤ noCode.length ∧ 5 ≤ noCode.length then
          some (trimSuffixCRLF (noCode.take 1 ++ noCode.drop 5))
        else none
      | some i =>
        if i + 2 ≤ noCode.length ∧ i + 6 ≤ noCode.length then
          some (trimSuffixCRLF (noCode.take (i + 2) ++ noCode.drop (i + 6)))
        else none

/-! Lemmas about `lastIndexCRLF`, `endsInNewLine` and `trimSuffixCRLF`. -/

theorem lastIndexCRLF_cons_lf_none {B : List Char}
    (hB : lastIndexCRLF B = none) : lastIndexCRLF ('\n' :: B) = none := by
  simp [lastIndexCRLF, hB]

theorem lastIndexCRLF_append_crlf (A : List Char) {B : List Char}
    (hB : lastIndexCRLF B = none) :
    lastIndexCRLF (A ++ '\r' :: '\n' :: B) = some A.length := by
  induction A with
  | nil =>
    simp [lastIndexCRLF, hB]
  | cons a A ih =>
    simp [lastIndexCRLF, ih]

theorem lastIndexCRLF_append_none {X Y : List Char}
    (h : lastIndexCRLF (X ++ Y) = none) : lastIndexCRLF Y = none := by
  induction X with
  | nil => exact h
  | cons x X ih =>
    apply ih
    rw [List.cons_append, lastIndexCRLF] at h
    rcases hm : lastIndexCRLF (X ++ Y) with _ | i
    · rfl
    · rw [hm] at h
      exact absurd h (by simp)

theorem endsInNewLine_cons {l : List Char} (c : Char) (h : 2 ≤ l.length) :
    endsInNewLine (c :: l) = endsInNewLine l := by
  unfold endsInNewLine
  have h1 : ¬ (c :: l).length < 2 := by simp; omega
  have h2 : ¬ l.length < 2 := by omega
  have e1 : (c :: l).length - 2 = (l.length - 2) + 1 := by simp; omega
  have e2 : (c :: l).length - 1 = (l.length - 1) + 1 := by simp; omega
  rw [if_neg h1, if_neg h2, e1, e2, List.getD_cons_succ, List.getD_cons_succ]

theorem endsInNewLine_append {l : List Char} (X : List Char)
    (h : 2 ≤ l.length) : endsInNewLine (X ++ l) = endsInNewLine l := by
  induction X with
  | nil => rfl
  | cons x X ih =>
    rw [List.cons_append, endsInNewLine_cons x (by simp; omega), ih]

theorem endsInNewLine_append_crlf (Z : List Char) :
    endsInNewLine (Z ++ ['\r', '\n']) = true := by
  rw [endsInNewLine_append Z (by simp)]
  rfl

theorem exists_append_of_endsInNewLine {l : List Char}
    (h : endsInNewLine l = true) : ∃ Z, l = Z ++ ['\r', '\n'] := by
  induction l with
  | nil => exact absurd h (by simp [endsInNewLine])
  | cons c rest ih =>
    by_cases h2 : 2 ≤ rest.length
    · rw [endsInNewLine_cons c h2] at h
      obtain ⟨Z, hZ⟩ := ih h
      exact ⟨c :: Z, by rw [hZ]; rfl⟩
    · rcases rest with _ | ⟨x, rest2⟩
      · exact absurd h (by simp [endsInNewLine])
      rcases rest2 with _ | ⟨y, rest3⟩
      · have hcx : c = '\r' ∧ x = '\n' := by
          unfold endsInNewLine at h
          simpa using h
        exact ⟨[], by rw [hcx.1, hcx.2]; rfl⟩
      · exact absurd (by simp [Nat.le_add_left] : 2 ≤ (x :: y :: rest3).length) h2

theorem trimSuffixCRLF_append_crlf (Z : List Char) :
    trimSuffixCRLF (Z ++ ['\r', '\n']) = Z := by
  unfold trimSuffixCRLF
  rw [if_pos (endsInNewLine_append_crlf Z)]
  have h1 : (Z ++ ['\r', '\n']).length - 2 = Z.length := by simp
  rw [h1, List.take_left]

theorem trimSuffixCRLF_of_not_ends {l : List Char}
    (h : endsInNewLine l = false) : trimSuffixCRLF l = l := by
  unfold trimSuffixCRLF
  rw [h]
  rfl

theorem endsInNewLine_of_no_crlf {l : List Char}
    (h : lastIndexCRLF l = none) : endsInNewLine l = false := by
  cases he : endsInNewLine l
  · rfl
  · obtain ⟨Z, hZ⟩ := exists_append_of_endsInNewLine he
    rw [hZ] at h
    have : lastIndexCRLF (Z ++ '\r' :: '\n' :: ([] : List Char)) = some Z.length :=
      lastIndexCRLF_append_crlf Z rfl
    simp only [List.append_nil] at this
    rw [this] at h
    exact absurd h (by simp)

theorem removeControlSymbols_aux (code A q : List Char) (hc : code.length = 3)
    (hq : lastIndexCRLF (code ++ ' ' :: q) = none)
    (resp : List Char)
    (h4 : ¬ resp.length < 4)
    (hns : isSingleLineResponse resp = false)
    (hnc : trimSuffixCRLF (resp.drop 4) = A ++ '\r' :: '\n' :: (code ++ ' ' :: q)) :
    removeControlSymbols resp =
      some (if q.isEmpty then A else A ++ '\r' :: '\n' :: q) := by
  have hli : lastIndexCRLF (A ++ '\r' :: '\n' :: (code ++ ' ' :: q)) =
      some A.length := lastIndexCRLF_append_crlf A hq
  have hlen : (A ++ '\r' :: '\n' :: (code ++ ' ' :: q)).length =
      A.length + 6 + q.length := by
    simp only [List.length_append, List.length_cons, hc]
    omega
  have htake : (A ++ '\r' :: '\n' :: (code ++ ' ' :: q)).take (A.length + 2) =
      A ++ ['\r', '\n'] := by
    have hsplit : A ++ '\r' :: '\n' :: (code ++ ' ' :: q) =
        (A ++ ['\r', '\n']) ++ (code ++ ' ' :: q) := by simp
    have hl : A.length + 2 = (A ++ ['\r', '\n']).length := by simp
    rw [hsplit, hl, List.take_left]
  have hdropq : (A ++ '\r' :: '\n' :: (code ++ ' ' :: q)).drop (A.length + 6) =
      q := by
    have hsplit : A ++ '\r' :: '\n' :: (code ++ ' ' :: q) =
        ((A ++ ['\r', '\n']) ++ (code ++ [' '])) ++ q := by simp
    have hl : A.length + 6 = ((A ++ ['\r', '\n']) ++ (code ++ [' '])).length := by
      simp [hc]
    rw [hsplit, hl, List.drop_left]
  unfold removeControlSymbols
  rw [if_neg h4]
  simp only [hnc, hns, Bool.false_eq_true, if_false, hli]
  rw [if_pos (by rw [hlen]; omega : A.length + 2 ≤
    (A ++ '\r' :: '\n' :: (code ++ ' ' :: q)).length ∧ A.length + 6 ≤
    (A ++ '\r' :: '\n' :: (code ++ ' ' :: q)).length)]
  rw [htake, hdropq]
  by_cases hq0 : q = []
  · subst hq0
    simp only [List.isEmpty_nil, if_true, List.append_nil]
    rw [trimSuffixCRLF_append_crlf]
  · have hqe : q.isEmpty = false := by
      cases q
      · exact absurd rfl hq0
      · rfl
    simp only [hqe, Bool.false_eq_true, if_false]
    have hqn : lastIndexCRLF q = none := by
      have : code ++ ' ' :: q = (code ++ [' ']) ++ q := by simp
      rw [this] at hq
      exact lastIndexCRLF_append_none hq
    have hne : endsInNewLine ((A ++ ['\r', '\n']) ++ q) = false := by
      rcases q with _ | ⟨x, q2⟩
      · exact absurd rfl hq0
      rcases q2 with _ | ⟨y, q3⟩
      · have hsplit : (A ++ ['\r', '\n']) ++ [x] = (A ++ ['\r']) ++ ['\n', x] := by
          simp
        rw [hsplit, endsInNewLine_append _ (by simp only [List.length_cons, List.length_append]; omega)]
        simp [endsInNewLine]
      · rw [endsInNewLine_append _ (by simp only [List.length_cons]; omega)]
        exact endsInNewLine_of_no_crlf hqn
    rw [trimSuffixCRLF_of_not_ends hne]
    simp

theorem removeControlSymbols_single (code t : List Char) (hc : code.length = 3) :
    removeControlSymbols (code ++ ' ' :: (t ++ ['\r', '\n'])) = some t := by
  have hlen : (code ++ ' ' :: (t ++ ['\r', '\n'])).length = t.length + 6 := by
    simp only [List.length_append, List.length_cons, List.length_nil, hc]
    omega
  have hdrop : (code ++ ' ' :: (t ++ ['\r', '\n'])).drop 4 = t ++ ['\r', '\n'] := by
    have hsplit : code ++ ' ' :: (t ++ ['\r', '\n']) =
        (code ++ [' ']) ++ (t ++ ['\r', '\n']) := by simp
    have hl : (4 : Nat) = (code ++ [' ']).length := by simp [hc]
    rw [hsplit, hl, List.drop_left]
  have hsingle : isSingleLineResponse (code ++ ' ' :: (t ++ ['\r', '\n'])) = true := by
    unfold isSingleLineResponse
    have hg : (code ++ ' ' :: (t ++ ['\r', '\n'])).getD 3 'x' = ' ' := by
      rw [List.getD_append_right _ _ _ _ (by omega : code.length ≤ 3)]
      simp [hc]
    rw [hg]
    simp [hlen]
  unfold removeControlSymbols
  rw [if_neg (by omega : ¬ (code ++ ' ' :: (t ++ ['\r', '\n'])).length < 4)]
  simp only [hdrop, trimSuffixCRLF_append_crlf, hsingle, if_true]

/-- C3: `removeControlSymbols` drops the leading 4-byte code-plus-
separator and the trailing CR-LF, and on non-single-line replies
additionally splices out the embedded final line's leading
code-plus-space marker; in particular `"214 text\r\n"` yields
`"text"` and `"214-a\r\nb\r\n214 c"` (no trailing terminator) yields
`"a\r\nb\r\nc"`. -/
theorem claim_C3_payload :
    (∀ code t : List Char, code.length = 3 →
      removeControlSymbols (code ++ ' ' :: (t ++ ['\r', '\n'])) = some t) ∧
    (∀ code A q : List Char, code.length = 3 →
      lastIndexCRLF (code ++ ' ' :: q) = none →
      removeControlSymbols (code ++ '-' :: (A ++ '\r' :: '\n' :: (code ++ ' ' :: q))) =
        some (if q.isEmpty then A else A ++ '\r' :: '\n' :: q)) ∧
    (∀ code A q : List Char, code.length = 3 →
      lastIndexCRLF (code ++ ' ' :: q) = none →
      removeControlSymbols
          (code ++ '-' :: (A ++ '\r' :: '\n' :: (code ++ ' ' :: (q ++ ['\r', '\n'])))) =
        some (if q.isEmpty then A else A ++ '\r' :: '\n' :: q)) ∧
    removeControlSymbols "214 text\r\n".toList = some "text".toList ∧
    removeControlSymbols "214-a\r\nb\r\n214 c".toList = some "a\r\nb\r\nc".toList := by
  have hlen4 : ∀ code A rest : List Char, code.length = 3 →
      ¬ (code ++ '-' :: (A ++ '\r' :: '\n' :: rest)).length < 4 := by
    intro code A rest hc
    simp only [List.length_append, List.length_cons, hc, not_lt]
    omega
  have hget : ∀ code A rest : List Char, code.length = 3 →
      isSingleLineResponse (code ++ '-' :: (A ++ '\r' :: '\n' :: rest)) = false := by
    intro code A rest hc
    unfold isSingleLineResponse
    have hg : (code ++ '-' :: (A ++ '\r' :: '\n' :: rest)).getD 3 'x' = '-' := by
      rw [List.getD_append_right _ _ _ _ (by omega : code.length ≤ 3)]
      simp [hc]
    rw [hg]
    simp
  have hdropm : ∀ code A rest : List Char, code.length = 3 →
      (code ++ '-' :: (A ++ '\r' :: '\n' :: rest)).drop 4 =
        A ++ '\r' :: '\n' :: rest := by
    intro code A rest hc
    have hsplit : code ++ '-' :: (A ++ '\r' :: '\n' :: rest) =
        (code ++ ['-']) ++ (A ++ '\r' :: '\n' :: rest) := by simp
    have hl : (4 : Nat) = (code ++ ['-']).length := by simp [hc]
    rw [hsplit, hl, List.drop_left]
  refine ⟨removeControlSymbols_single, ?_, ?_, ?_, ?_⟩
  · intro code A q hc hq
    apply removeControlSymbols_aux code A q hc hq _ (hlen4 code A _ hc)
      (hget code A _ hc)
    rw [hdropm code A _ hc]
    apply trimSuffixCRLF_of_not_ends
    have hsplit : A ++ '\r' :: '\n' :: (code ++ ' ' :: q) =
        (A ++ ['\r', '\n']) ++ (code ++ ' ' :: q) := by simp
    rw [hsplit, endsInNewLine_append _ (by simp only [List.length_cons, List.length_append]; omega)]
    exact endsInNewLine_of_no_crlf hq
  · intro code A q hc hq
    apply removeControlSymbols_aux code A q hc hq _ (hlen4 code A _ hc)
      (hget code A _ hc)
    rw [hdropm code A _ hc]
    have hsplit : A ++ '\r' :: '\n' :: (code ++ ' ' :: (q ++ ['\r', '\n'])) =
        (A ++ '\r' :: '\n' :: (code ++ ' ' :: q)) ++ ['\r', '\n'] := by simp
    rw [hsplit, trimSuffixCRLF_append_crlf]
  · rfl
  · rfl

/-- C3 witness. -/
theorem claim_C3_witness :
    removeControlSymbols ("150".toList ++ ' ' :: ("opening data".toList ++ ['\r', '\n'])) =
      some "opening data".toList ∧
    removeControlSymbols ("211".toList ++ '-' ::
        ("x".toList ++ '\r' :: '\n' :: ("211".toList ++ ' ' :: "y".toList))) =
      some ("x".toList ++ '\r' :: '\n' :: "y".toList) := by
  constructor
  · exact claim_C3_payload.1 "150".toList "opening data".toList (by decide)
  · exact claim_C3_payload.2.1 "211".toList "x".toList "y".toList (by decide) (by decide)

/-! ## Structural facts about `splitCRLF`, used for the slicing-safety
analysis of `removeControlSymbols`. -/

/-- Joining with CR-LF, the inverse of `splitCRLF`. -/
def joinCRLF : List (List Char) → List Char
  | [] => []
  | [l] => l
  | l :: ls => l ++ '\r' :: '\n' :: joinCRLF ls

theorem joinCRLF_cons_of_ne_nil {ls : List (List Char)} (l : List Char)
    (h : ls ≠ []) : joinCRLF (l :: ls) = l ++ '\r' :: '\n' :: joinCRLF ls := by
  match ls with
  | [] => exact absurd rfl h
  | x :: xs => rfl

theorem splitCRLF_ne_nil (msg : List Char) : splitCRLF msg ≠ [] := by
  match msg with
  | [] => simp [splitCRLF]
  | [c] => simp [splitCRLF]
  | c :: c2 :: rest =>
    rw [splitCRLF]
    split
    · simp
    · split
      · simp
      · simp

theorem splitCRLF_join (msg : List Char) : joinCRLF (splitCRLF msg) = msg := by
  match msg with
  | [] => rfl
  | [c] => rfl
  | c :: c2 :: rest =>
    rw [splitCRLF]
    split
    case isTrue h =>
      rw [joinCRLF_cons_of_ne_nil _ (splitCRLF_ne_nil rest), splitCRLF_join rest]
      obtain ⟨h1, h2⟩ := h
      subst h1
      subst h2
      rfl
    case isFalse h =>
      rcases hsp : splitCRLF (c2 :: rest) with _ | ⟨l, ls⟩
      · exact absurd hsp (splitCRLF_ne_nil _)
      have hj : joinCRLF (l :: ls) = c2 :: rest := by
        rw [← hsp, splitCRLF_join (c2 :: rest)]
      rcases ls with _ | ⟨y, ys⟩
      · have hl : l = c2 :: rest := hj
        show joinCRLF [c :: l] = c :: c2 :: rest
        rw [show joinCRLF [c :: l] = c :: l from rfl, hl]
      · rw [joinCRLF_cons_of_ne_nil _ (by simp)]
        rw [joinCRLF_cons_of_ne_nil _ (by simp)] at hj
        rw [List.cons_append, hj]

theorem splitCRLF_head {msg : List Char} {y : Char} {l : List Char}
    {ls : List (List Char)} (h : splitCRLF msg = (y :: l) :: ls) :
    msg.head? = some y := by
  match msg with
  | [] => simp [splitCRLF] at h
  | [c] =>
    rw [splitCRLF] at h
    injection h with h1 h2
    injection h1 with hy hl
    subst hy
    rfl
  | c :: c2 :: rest =>
    rw [splitCRLF] at h
    split at h
    · injection h with h1 h2
      exact absurd h1.symm (by simp)
    · split at h
      · injection h with h1 h2
        injection h1 with hy hl
        subst hy
        rfl
      · injection h with h1 h2
        injection h1 with hy hl
        subst hy
        rfl

theorem splitCRLF_no_crlf (msg : List Char) :
    ∀ l ∈ splitCRLF msg, lastIndexCRLF l = none := by
  match msg with
  | [] =>
    intro l hl
    simp [splitCRLF] at hl
    subst hl
    rfl
  | [c] =>
    intro l hl
    simp [splitCRLF] at hl
    subst hl
    simp [lastIndexCRLF]
  | c :: c2 :: rest =>
    rw [splitCRLF]
    split
    case isTrue h =>
      intro l hl
      rcases List.mem_cons.mp hl with h1 | h2
      · subst h1
        rfl
      · exact splitCRLF_no_crlf rest l h2
    case isFalse h =>
      rcases hsp : splitCRLF (c2 :: rest) with _ | ⟨f, fs⟩
      · exact absurd hsp (splitCRLF_ne_nil _)
      intro l hl
      rcases List.mem_cons.mp hl with h1 | h2
      · subst h1
        have hf : lastIndexCRLF f = none :=
          splitCRLF_no_crlf (c2 :: rest) f (by rw [hsp]; exact List.mem_cons_self _ _)
        rw [lastIndexCRLF, hf]
        rcases hfh : f with _ | ⟨y, f'⟩
        · simp
        · have hy : c2 = y := by
            have := splitCRLF_head (by rw [hsp, hfh] :
              splitCRLF (c2 :: rest) = (y :: f') :: fs)
            injection this
          rw [if_neg]
          intro hcontra
          apply h
          refine ⟨hcontra.1, ?_⟩
          have := hcontra.2
          simp only [List.head?] at this
          injection this with hthis
          rw [hy, hthis]
      · exact splitCRLF_no_crlf (c2 :: rest) l (by rw [hsp]; exact List.mem_cons_of_mem _ h2)

theorem splitCRLF_last_empty {msg : List Char} (h : endsInNewLine msg = true) :
    ∃ fr, splitCRLF msg = fr ++ [[]] := by
  match msg with
  | [] => exact absurd h (by simp [endsInNewLine])
  | [c] => exact absurd h (by simp [endsInNewLine])
  | c :: c2 :: rest =>
    rw [splitCRLF]
    split
    case isTrue hp =>
      rcases rest with _ | ⟨r, rest'⟩
      · exact ⟨[[]], rfl⟩
      rcases rest' with _ | ⟨r2, rest''⟩
      · obtain ⟨h1, h2⟩ := hp
        subst h1
        subst h2
        exact absurd h (by simp [endsInNewLine])
      · have hsh : endsInNewLine (r :: r2 :: rest'') = true := by
          rw [← endsInNewLine_cons c2 (by simp only [List.length_cons]; omega),
            ← endsInNewLine_cons c (by simp only [List.length_cons]; omega)]
          exact h
        obtain ⟨fr, hfr⟩ := splitCRLF_last_empty hsh
        exact ⟨[] :: fr, by rw [hfr]; rfl⟩
    case isFalse hn =>
      rcases rest with _ | ⟨r, rest'⟩
      · have hcx : c = '\r' ∧ c2 = '\n' := by
          unfold endsInNewLine at h
          simpa using h
        exact absurd hcx hn
      have hsh : endsInNewLine (c2 :: r :: rest') = true := by
        rw [← endsInNewLine_cons c (by simp only [List.length_cons]; omega)]
        exact h
      obtain ⟨fr, hfr⟩ := splitCRLF_last_empty hsh
      rcases hsp : splitCRLF (c2 :: r :: rest') with _ | ⟨f, fs⟩
      · exact absurd hsp (splitCRLF_ne_nil _)
      rw [hsp] at hfr
      rcases fr with _ | ⟨g, gs⟩
      · have : joinCRLF (splitCRLF (c2 :: r :: rest')) = c2 :: r :: rest' :=
          splitCRLF_join _
        rw [hsp, hfr] at this
        simp only [List.nil_append] at this
        exact absurd this.symm (by simp [joinCRLF])
      · injection hfr with hf1 hf2
        exact ⟨(c :: f) :: gs, by rw [hf2]; rfl⟩

theorem joinCRLF_concat {xs : List (List Char)} (x : List Char) (h : xs ≠ []) :
    joinCRLF (xs ++ [x]) = joinCRLF xs ++ '\r' :: '\n' :: x := by
  match xs with
  | [] => exact absurd rfl h
  | [x0] => rfl
  | x0 :: x1 :: xs' =>
    have h1 : joinCRLF ((x0 :: x1 :: xs') ++ [x]) =
        x0 ++ '\r' :: '\n' :: joinCRLF ((x1 :: xs') ++ [x]) := by
      rw [List.cons_append]
      exact joinCRLF_cons_of_ne_nil x0 (by simp)
    have h2 : joinCRLF (x0 :: x1 :: xs') =
        x0 ++ '\r' :: '\n' :: joinCRLF (x1 :: xs') :=
      joinCRLF_cons_of_ne_nil x0 (by simp)
    rw [h1, @joinCRLF_concat (x1 :: xs') x (by simp), h2]
    simp

theorem bor_true {a b : Bool} (h : (a || b) = true) : a = true ∨ b = true := by
  simp only [Bool.or_eq_true] at h
  exact h

theorem band_true {a b : Bool} (h : (a && b) = true) : a = true ∧ b = true := by
  simp only [Bool.and_eq_true] at h
  exact h

/-- C10 counterexample: the reply `"214-a\r\n214 b\r\nc"` is a complete
multi-line reply whose extracted code `214` is accepted by
`HelpAbout`, yet `removeControlSymbols` slices out of range on it
(the model returns `none`, the Go code panics), because the text after
the last CR-LF is shorter than 4 bytes; moreover acceptance does not
even require more than 3 bytes: the degenerate reply `"214"` is also
accepted and also panics. -/
theorem claim_C10_counterexample :
    extractCode ("214-a" ++ "\r\n" ++ "214 b" ++ "\r\n" ++ "c").toList = helpMessage ∧
    isCompleteResponse ("214-a" ++ "\r\n" ++ "214 b" ++ "\r\n" ++ "c").toList = true ∧
    removeControlSymbols ("214-a" ++ "\r\n" ++ "214 b" ++ "\r\n" ++ "c").toList = none ∧
    extractCode "214".toList = helpMessage ∧
    removeControlSymbols "214".toList = none := by
  refine ⟨rfl, rfl, rfl, rfl, rfl⟩

/-- C10 (amended): whenever HelpAbout, StatusOf or System accept a
reply that is a complete response ending with the CR-LF terminator —
the only replies `receive` hands them without an error — the reply is
longer than 3 bytes and all the slicing in `removeControlSymbols`
stays within bounds, so payload extraction does not panic. -/
theorem claim_C10_amended :
    ∀ resp : List Char,
      (extractCode resp = systemStatusOrHelpReply ∨ extractCode resp = helpMessage ∨
       extractCode resp = directoryStatus ∨ extractCode resp = fileStatus ∨
       extractCode resp = systemName) →
      isCompleteResponse resp = true → endsInNewLine resp = true →
      3 < resp.length ∧ (removeControlSymbols resp).isSome = true := by
  intro resp hacc hcomp hends
  rw [isCompleteResponse] at hcomp
  rcases bor_true hcomp with hs | hm
  · -- single-line replies
    obtain ⟨hsl, _⟩ := band_true hs
    have h4 : 4 ≤ resp.length :=
      of_decide_eq_true (band_true hsl).1
    refine ⟨by omega, ?_⟩
    unfold removeControlSymbols
    rw [if_neg (by omega)]
    simp only [hsl, if_true]
    rfl
  · -- multi-line replies
    obtain ⟨hml, hll⟩ := band_true hm
    have h4 : 4 ≤ resp.length :=
      of_decide_eq_true (band_true hml).1
    have hd : resp.getD 3 'x' = '-' :=
      of_decide_eq_true (band_true hml).2
    rw [lastLine_eq_chain] at hll
    obtain ⟨hn3d, hrest⟩ := band_true hll
    obtain ⟨hmid, hEqd⟩ := band_true hrest
    obtain ⟨hF3d, hS4d⟩ := band_true hmid
    have hn3 : 3 ≤ (splitCRLF resp).length := of_decide_eq_true hn3d
    have hF3 : 3 ≤ ((splitCRLF resp).getD 0 []).length := of_decide_eq_true hF3d
    have hS4 : 4 ≤ ((splitCRLF resp).getD ((splitCRLF resp).length - 2) []).length :=
      of_decide_eq_true hS4d
    obtain ⟨fr, hfr⟩ := splitCRLF_last_empty hends
    have hnlen : (splitCRLF resp).length = fr.length + 1 := by rw [hfr]; simp
    have hfr2 : 2 ≤ fr.length := by omega
    rcases fr.eq_nil_or_concat' with hfrnil | ⟨fr', b, hfr'⟩
    · rw [hfrnil] at hfr2
      simp at hfr2
    rcases fr' with _ | ⟨f0, fr''⟩
    · rw [hfr'] at hfr2
      simp at hfr2
    have hsp : splitCRLF resp = (f0 :: fr'') ++ [b, []] := by
      rw [hfr, hfr']
      simp
    have hlen2 : (splitCRLF resp).length - 2 = (f0 :: fr'').length := by
      rw [hsp]
      simp
    have hSb : (splitCRLF resp).getD ((splitCRLF resp).length - 2) [] = b := by
      rw [hlen2, hsp, List.getD_append_right _ _ _ _ (le_refl _)]
      simp
    have hb4 : 4 ≤ b.length := by rw [hSb] at hS4; exact hS4
    have hbnone : lastIndexCRLF b = none := by
      apply splitCRLF_no_crlf resp b
      rw [hsp]
      exact List.mem_append.mpr (Or.inr (by simp))
    have hF : (splitCRLF resp).getD 0 [] = f0 := by rw [hsp]; rfl
    have hf03 : 3 ≤ f0.length := by rw [hF] at hF3; exact hF3
    have hresp : resp = (joinCRLF (f0 :: fr'') ++ '\r' :: '\n' :: b) ++ ['\r', '\n'] := by
      conv_lhs => rw [← splitCRLF_join resp, hsp]
      rw [show (f0 :: fr'') ++ [b, []] = (((f0 :: fr'') ++ [b]) ++ [[]] :
        List (List Char)) by simp]
      rw [joinCRLF_concat ([] : List Char) (by simp), joinCRLF_concat b (by simp)]
    have hJpre : joinCRLF (f0 :: fr'') = f0 ++ [] ∨
        ∃ W, joinCRLF (f0 :: fr'') = f0 ++ '\r' :: '\n' :: W := by
      rcases fr'' with _ | ⟨y, ys⟩
      · exact Or.inl (by simp [joinCRLF])
      · exact Or.inr ⟨joinCRLF (y :: ys), joinCRLF_cons_of_ne_nil f0 (by simp)⟩
    have hstruct : ∃ R, resp = f0 ++ '\r' :: '\n' :: R := by
      rcases hJpre with hJ0 | ⟨W, hJW⟩
      · refine ⟨b ++ ['\r', '\n'], ?_⟩
        rw [hresp, hJ0]
        simp
      · refine ⟨W ++ '\r' :: '\n' :: b ++ ['\r', '\n'], ?_⟩
        rw [hresp, hJW]
        simp
    have hf04 : 4 ≤ f0.length := by
      by_contra hlt
      have h3 : f0.length = 3 := by omega
      obtain ⟨R, hR⟩ := hstruct
      rw [hR, List.getD_append_right _ _ _ _ (by omega : f0.length ≤ 3)] at hd
      rw [h3] at hd
      simp at hd
    have hJ4 : 4 ≤ (joinCRLF (f0 :: fr'')).length := by
      rcases hJpre with hJ0 | ⟨W, hJW⟩
      · rw [hJ0]
        simp
        omega
      · rw [hJW]
        simp only [List.length_append, List.length_cons]
        omega
    have hdrop : resp.drop 4 =
        ((joinCRLF (f0 :: fr'')).drop 4 ++ '\r' :: '\n' :: b) ++ ['\r', '\n'] := by
      rw [hresp]
      rw [List.drop_append_of_le_length
        (show 4 ≤ (joinCRLF (f0 :: fr'') ++ '\r' :: '\n' :: b).length by
          simp only [List.length_append, List.length_cons]; omega)]
      rw [List.drop_append_of_le_length hJ4]
    have hnc : trimSuffixCRLF (resp.drop 4) =
        (joinCRLF (f0 :: fr'')).drop 4 ++ '\r' :: '\n' :: b := by
      rw [hdrop, trimSuffixCRLF_append_crlf]
    have hli : lastIndexCRLF ((joinCRLF (f0 :: fr'')).drop 4 ++ '\r' :: '\n' :: b) =
        some ((joinCRLF (f0 :: fr'')).drop 4).length :=
      lastIndexCRLF_append_crlf _ hbnone
    have hns : isSingleLineResponse resp = false := by
      unfold isSingleLineResponse
      rw [hd]
      simp
    refine ⟨by omega, ?_⟩
    unfold removeControlSymbols
    rw [if_neg (by omega)]
    simp only [hns, Bool.false_eq_true, if_false, hnc, hli]
    rw [if_pos ⟨by simp only [List.length_append, List.length_cons]; omega,
      by simp only [List.length_append, List.length_cons]; omega⟩]
    rfl

/-- C10 witness. -/
theorem claim_C10_witness :
    3 < ("214-a" ++ "\r\n" ++ "214 ok" ++ "\r\n").toList.length ∧
    (removeControlSymbols ("214-a" ++ "\r\n" ++ "214 ok" ++ "\r\n").toList).isSome = true := by
  exact claim_C10_amended ("214-a" ++ "\r\n" ++ "214 ok" ++ "\r\n").toList
    (Or.inr (Or.inl (by decide))) (by decide) (by decide)

/-! ## Passive address extraction (`getAddressOfPasvResponse`, ftp.go)

The Go code matches the pattern
`.*\(([0-9]+,[0-9]+,[0-9]+,[0-9]+),([0-9]+),([0-9]+)\).*`
(leftmost-first, greedy; `.` does not match a line feed) against the
reply and builds `ip:port` from the captures.  The model implements
that specific pattern: a tuple parse at a position is a `(`, six
maximal nonempty digit runs separated by `,`, and a `)`; the match
Go selects is the last parseable tuple start on the line of the first
parseable tuple start (the greedy leading `.*`, which cannot cross a
line feed, backtracks to the last viable `(` of the leftmost line
that has one). -/

/-- One maximal nonempty digit run (regex `[0-9]+`). -/
def parseNum (l : List Char) : Option (List Char × List Char) :=
  if (l.takeWhile Char.isDigit).isEmpty then none
  else some (l.takeWhile Char.isDigit, l.dropWhile Char.isDigit)

/-- A required literal character. -/
def expectChar (c : Char) : List Char → Option (List Char)
  | [] => none
  | x :: r => if x = c then some r else none

/-- The 6-tuple of digit runs, or `none` if the pattern does not match
at this exact position. -/
def parseTupleFrom (l : List Char) :
    Option (List Char × List Char × List Char × List Char × List Char × List Char) := do
  let r0 ← expectChar '(' l
  let (a, r1) ← parseNum r0
  let r1b ← expectChar ',' r1
  let (b, r2) ← parseNum r1b
  let r2b ← expectChar ',' r2
  let (c, r3) ← parseNum r2b
  let r3b ← expectChar ',' r3
  let (d, r4) ← parseNum r3b
  let r4b ← expectChar ',' r4
  let (h, r5) ← parseNum r4b
  let r5b ← expectChar ',' r5
  let (lo, r6) ← parseNum r5b
  let _ ← expectChar ')' r6
  pure (a, b, c, d, h, lo)

/-- Scan the remainder of the current line, keeping the tuple of the
last position that parses (the greedy `.*` backtracking order). -/
def lastTupleInLine :
    List Char →
    Option (List Char × List Char × List Char × List Char × List Char × List Char) →
    Option (List Char × List Char × List Char × List Char × List Char × List Char)
  | [], best => best
  | c :: rest, best =>
    if c = '\n' then best
    else
      match parseTupleFrom (c :: rest) with
      | some t => lastTupleInLine rest (some t)
      | none => lastTupleInLine rest best

/-- The tuple Go's `addrMatcher.FindSubmatch` captures: `none` iff the
pattern does not match anywhere. -/
def findTuple :
    List Char →
    Option (List Char × List Char × List Char × List Char × List Char × List Char)
  | [] => none
  | c :: rest =>
    match parseTupleFrom (c :: rest) with
    | some t => lastTupleInLine rest (some t)
    | none => findTuple rest

/-- The decimal value of a digit run. -/
def digitsToNat (ds : List Char) : Nat :=
  ds.foldl (fun acc c => 10 * acc + (c.toNat - '0'.toNat)) 0

/-- Go's 64-bit `math.MaxInt64`. -/
def maxInt64 : Nat := 9223372036854775807

/-- Go `strconv.Atoi` on a nonempty digit run: the decimal value,
clamped to the maximum 64-bit signed integer on range error (the code
ignores the error). -/
def atoi64 (ds : List Char) : Int :=
  if digitsToNat ds ≤ maxInt64 then (digitsToNat ds : Int) else (maxInt64 : Int)

/-- Two's-complement wrap-around of Go's 64-bit `int` arithmetic. -/
def wrap64 (z : Int) : Int := (z + 2 ^ 63) % 2 ^ 64 - 2 ^ 63

/-- Go `strconv.Itoa`. -/
def intToDecimalString (z : Int) : String :=
  if z < 0 then "-" ++ toString z.natAbs else toString z.toNat

/-- Go `getAddressOfPasvResponse`. -/
def getAddressOfPasvResponse (msg : List Char) : Except String String :=
  match findTuple msg with
  | none => .error (errorMessage "address extraction" msg)
  | some (a, b, c, d, h, lo) =>
    .ok (String.mk (a ++ ('.' :: (b ++ ('.' :: (c ++ ('.' :: d)))))) ++ ":" ++
      intToDecimalString (wrap64 (256 * atoi64 h + atoi64 lo)))

/-- The claim's containment condition, in the spec's words: the reply
contains a parenthesized 6-tuple of comma-separated decimal
numbers. -/
def specContainsTuple (msg : List Char) : Prop :=
  ∃ u a b c d h lo v : List Char,
    msg = u ++ '(' :: (a ++ ',' :: (b ++ ',' :: (c ++ ',' ::
      (d ++ ',' :: (h ++ ',' :: (lo ++ ')' :: v)))))) ∧
    a ≠ [] ∧ b ≠ [] ∧ c ≠ [] ∧ d ≠ [] ∧ h ≠ [] ∧ lo ≠ [] ∧
    (∀ x ∈ a, x.isDigit = true) ∧ (∀ x ∈ b, x.isDigit = true) ∧
    (∀ x ∈ c, x.isDigit = true) ∧ (∀ x ∈ d, x.isDigit = true) ∧
    (∀ x ∈ h, x.isDigit = true) ∧ (∀ x ∈ lo, x.isDigit = true)

theorem takeWhile_digits_append {ds : List Char} (r : List Char)
    (hds : ∀ x ∈ ds, Char.isDigit x = true) {y : Char}
    (hy : Char.isDigit y = false) :
    (ds ++ y :: r).takeWhile Char.isDigit = ds ∧
    (ds ++ y :: r).dropWhile Char.isDigit = y :: r := by
  induction ds with
  | nil => simp [List.takeWhile_cons, List.dropWhile_cons, hy]
  | cons x xs ih =>
    have hx : Char.isDigit x = true := hds x (by simp)
    have ihh := ih (fun z hz => hds z (by simp [hz]))
    simp [List.takeWhile_cons, List.dropWhile_cons, hx, ihh.1, ihh.2]

theorem parseNum_complete {ds : List Char} {y : Char} (r : List Char)
    (hne : ds ≠ []) (hds : ∀ x ∈ ds, Char.isDigit x = true)
    (hy : Char.isDigit y = false) :
    parseNum (ds ++ y :: r) = some (ds, y :: r) := by
  obtain ⟨ht, hd⟩ := takeWhile_digits_append r hds hy
  unfold parseNum
  rw [ht, hd, if_neg (by simpa using hne)]

theorem parseNum_sound {l ds r : List Char} (h : parseNum l = some (ds, r)) :
    l = ds ++ r ∧ ds ≠ [] ∧ ∀ x ∈ ds, Char.isDigit x = true := by
  unfold parseNum at h
  split_ifs at h with hcond
  have h2 := Option.some.inj h
  have hds : l.takeWhile Char.isDigit = ds := congrArg Prod.fst h2
  have hr : l.dropWhile Char.isDigit = r := congrArg Prod.snd h2
  refine ⟨?_, ?_, ?_⟩
  · rw [← hds, ← hr, List.takeWhile_append_dropWhile]
  · rw [← hds]
    simpa using hcond
  · intro x hx
    rw [← hds] at hx
    exact List.mem_takeWhile_imp hx

theorem expectChar_sound {c : Char} {l r : List Char}
    (h : expectChar c l = some r) : l = c :: r := by
  match l with
  | [] => exact absurd h (by simp [expectChar])
  | x :: r' =>
    rw [show expectChar c (x :: r') = if x = c then some r' else none from rfl] at h
    split_ifs at h with hx
    rw [hx, Option.some.inj h]

theorem expectChar_complete (c : Char) (r : List Char) :
    expectChar c (c :: r) = some r := by
  simp [expectChar]

theorem parseTupleFrom_complete {a b c d h lo : List Char} (v : List Char)
    (hane : a ≠ []) (hbne : b ≠ []) (hcne : c ≠ []) (hdne : d ≠ [])
    (hhne : h ≠ []) (hlone : lo ≠ [])
    (hadig : ∀ x ∈ a, x.isDigit = true) (hbdig : ∀ x ∈ b, x.isDigit = true)
    (hcdig : ∀ x ∈ c, x.isDigit = true) (hddig : ∀ x ∈ d, x.isDigit = true)
    (hhdig : ∀ x ∈ h, x.isDigit = true) (hldig : ∀ x ∈ lo, x.isDigit = true) :
    parseTupleFrom ('(' :: (a ++ ',' :: (b ++ ',' :: (c ++ ',' :: (d ++ ',' ::
      (h ++ ',' :: (lo ++ ')' :: v))))))) = some (a, b, c, d, h, lo) := by
  unfold parseTupleFrom
  simp only [Option.pure_def, Option.bind_eq_bind]
  rw [expectChar_complete]
  simp only [Option.some_bind]
  rw [parseNum_complete _ hane hadig (show Char.isDigit ',' = false from rfl)]
  simp only [Option.some_bind]
  rw [expectChar_complete]
  simp only [Option.some_bind]
  rw [parseNum_complete _ hbne hbdig (show Char.isDigit ',' = false from rfl)]
  simp only [Option.some_bind]
  rw [expectChar_complete]
  simp only [Option.some_bind]
  rw [parseNum_complete _ hcne hcdig (show Char.isDigit ',' = false from rfl)]
  simp only [Option.some_bind]
  rw [expectChar_complete]
  simp only [Option.some_bind]
  rw [parseNum_complete _ hdne hddig (show Char.isDigit ',' = false from rfl)]
  simp only [Option.some_bind]
  rw [expectChar_complete]
  simp only [Option.some_bind]
  rw [parseNum_complete _ hhne hhdig (show Char.isDigit ',' = false from rfl)]
  simp only [Option.some_bind]
  rw [expectChar_complete]
  simp only [Option.some_bind]
  rw [parseNum_complete _ hlone hldig (show Char.isDigit ')' = false from rfl)]
  simp only [Option.some_bind]
  rw [expectChar_complete]
  simp only [Option.some_bind]

theorem parseTupleFrom_sound {l a b c d h lo : List Char}
    (hp : parseTupleFrom l = some (a, b, c, d, h, lo)) :
    ∃ v, l = '(' :: (a ++ ',' :: (b ++ ',' :: (c ++ ',' :: (d ++ ',' ::
      (h ++ ',' :: (lo ++ ')' :: v)))))) ∧
    a ≠ [] ∧ b ≠ [] ∧ c ≠ [] ∧ d ≠ [] ∧ h ≠ [] ∧ lo ≠ [] ∧
    (∀ x ∈ a, x.isDigit = true) ∧ (∀ x ∈ b, x.isDigit = true) ∧
    (∀ x ∈ c, x.isDigit = true) ∧ (∀ x ∈ d, x.isDigit = true) ∧
    (∀ x ∈ h, x.isDigit = true) ∧ (∀ x ∈ lo, x.isDigit = true) := by
  unfold parseTupleFrom at hp
  simp only [Option.pure_def, Option.bind_eq_bind] at hp
  obtain ⟨r0, e0, hp⟩ := Option.bind_eq_some.mp hp
  obtain ⟨⟨a1, r1⟩, e1, hp⟩ := Option.bind_eq_some.mp hp
  obtain ⟨r1b, e1b, hp⟩ := Option.bind_eq_some.mp hp
  obtain ⟨⟨b1, r2⟩, e2, hp⟩ := Option.bind_eq_some.mp hp
  obtain ⟨r2b, e2b, hp⟩ := Option.bind_eq_some.mp hp
  obtain ⟨⟨c1, r3⟩, e3, hp⟩ := Option.bind_eq_some.mp hp
  obtain ⟨r3b, e3b, hp⟩ := Option.bind_eq_some.mp hp
  obtain ⟨⟨d1, r4⟩, e4, hp⟩ := Option.bind_eq_some.mp hp
  obtain ⟨r4b, e4b, hp⟩ := Option.bind_eq_some.mp hp
  obtain ⟨⟨h1, r5⟩, e5, hp⟩ := Option.bind_eq_some.mp hp
  obtain ⟨r5b, e5b, hp⟩ := Option.bind_eq_some.mp hp
  obtain ⟨⟨l1, r6⟩, e6, hp⟩ := Option.bind_eq_some.mp hp
  obtain ⟨r7, e7, hp⟩ := Option.bind_eq_some.mp hp
  dsimp only at e1b e2b e3b e4b e5b e7 hp
  have hps := Option.some.inj hp
  simp only [Prod.mk.injEq] at hps
  obtain ⟨ha, hb, hc, hd, hh, hl⟩ := hps
  subst ha
  subst hb
  subst hc
  subst hd
  subst hh
  subst hl
  obtain ⟨ha1, hane, hadig⟩ := parseNum_sound e1
  obtain ⟨hb1, hbne, hbdig⟩ := parseNum_sound e2
  obtain ⟨hc1, hcne, hcdig⟩ := parseNum_sound e3
  obtain ⟨hd1, hdne, hddig⟩ := parseNum_sound e4
  obtain ⟨hh1, hhne, hhdig⟩ := parseNum_sound e5
  obtain ⟨hl1, hlne, hldig⟩ := parseNum_sound e6
  have hl0 := expectChar_sound e0
  have hl1b := expectChar_sound e1b
  have hl2b := expectChar_sound e2b
  have hl3b := expectChar_sound e3b
  have hl4b := expectChar_sound e4b
  have hl5b := expectChar_sound e5b
  have hl7 := expectChar_sound e7
  refine ⟨r7, ?_, hane, hbne, hcne, hdne, hhne, hlne,
    hadig, hbdig, hcdig, hddig, hhdig, hldig⟩
  rw [hl0, ha1, hl1b, hb1, hl2b, hc1, hl3b, hd1, hl4b, hh1, hl5b, hl1, hl7]

theorem lastTupleInLine_isSome (l : List Char)
    (t : List Char × List Char × List Char × List Char × List Char × List Char) :
    (lastTupleInLine l (some t)).isSome = true := by
  induction l generalizing t with
  | nil => rfl
  | cons c rest ih =>
    unfold lastTupleInLine
    split_ifs with hc
    · rfl
    · rcases hp : parseTupleFrom (c :: rest) with _ | t'
      · simp only [hp]
        exact ih t
      · simp only [hp]
        exact ih t'

theorem findTuple_complete {msg : List Char} {k : Nat}
    {t : List Char × List Char × List Char × List Char × List Char × List Char}
    (h : parseTupleFrom (msg.drop k) = some t) :
    (findTuple msg).isSome = true := by
  induction msg generalizing k with
  | nil =>
    rw [List.drop_nil] at h
    exact absurd h (by rw [show parseTupleFrom ([] : List Char) = none from rfl]; simp)
  | cons c rest ih =>
    unfold findTuple
    rcases hp : parseTupleFrom (c :: rest) with _ | t0
    · rcases k with _ | k'
      · rw [List.drop_zero] at h
        rw [hp] at h
        cases h
      · rw [List.drop_succ_cons] at h
        exact ih h
    · exact lastTupleInLine_isSome rest t0

theorem lastTupleInLine_sound {l : List Char}
    {best t : Option (List Char × List Char × List Char × List Char × List Char × List Char)}
    (h : lastTupleInLine l best = t) :
    best = t ∨ ∃ k t', parseTupleFrom (l.drop k) = some t' ∧ t = some t' := by
  induction l generalizing best with
  | nil => exact Or.inl h
  | cons c rest ih =>
    unfold lastTupleInLine at h
    split_ifs at h with hc
    · exact Or.inl h
    · rcases hp : parseTupleFrom (c :: rest) with _ | t0
      · rw [hp] at h
        rcases ih h with h1 | ⟨k, t', hk, ht'⟩
        · exact Or.inl h1
        · exact Or.inr ⟨k + 1, t', by rw [List.drop_succ_cons]; exact hk, ht'⟩
      · rw [hp] at h
        rcases ih h with h1 | ⟨k, t', hk, ht'⟩
        · refine Or.inr ⟨0, t0, by rw [List.drop_zero]; exact hp, h1.symm⟩
        · exact Or.inr ⟨k + 1, t', by rw [List.drop_succ_cons]; exact hk, ht'⟩

theorem findTuple_sound {msg : List Char}
    {t : List Char × List Char × List Char × List Char × List Char × List Char}
    (h : findTuple msg = some t) :
    ∃ k, parseTupleFrom (msg.drop k) = some t := by
  induction msg with
  | nil => cases h
  | cons c rest ih =>
    unfold findTuple at h
    rcases hp : parseTupleFrom (c :: rest) with _ | t0
    · rw [hp] at h
      obtain ⟨k, hk⟩ := ih h
      exact ⟨k + 1, by rw [List.drop_succ_cons]; exact hk⟩
    · rw [hp] at h
      rcases lastTupleInLine_sound h with h1 | ⟨k, t', hk, ht'⟩
      · exact ⟨0, by rw [List.drop_zero, hp, h1]⟩
      · have : t' = t := by injection ht'.symm
        rw [this] at hk
        exact ⟨k + 1, by rw [List.drop_succ_cons]; exact hk⟩

theorem findTuple_isSome_iff (msg : List Char) :
    (findTuple msg).isSome = true ↔ specContainsTuple msg := by
  constructor
  · intro h
    obtain ⟨t, ht⟩ := Option.isSome_iff_exists.mp h
    obtain ⟨a, b, c, d, hh, lo⟩ := t
    obtain ⟨k, hk⟩ := findTuple_sound ht
    obtain ⟨v, heq, hane, hbne, hcne, hdne, hhne, hlone, hadig, hbdig, hcdig,
      hddig, hhdig, hldig⟩ := parseTupleFrom_sound hk
    refine ⟨msg.take k, a, b, c, d, hh, lo, v, ?_, hane, hbne, hcne, hdne,
      hhne, hlone, hadig, hbdig, hcdig, hddig, hhdig, hldig⟩
    conv_lhs => rw [← List.take_append_drop k msg]
    rw [heq]
  · rintro ⟨u, a, b, c, d, hh, lo, v, heq, hane, hbne, hcne, hdne, hhne, hlone,
      hadig, hbdig, hcdig, hddig, hhdig, hldig⟩
    have hp : parseTupleFrom (msg.drop u.length) = some (a, b, c, d, hh, lo) := by
      rw [heq, List.drop_left]
      exact parseTupleFrom_complete v hane hbne hcne hdne hhne hlone
        hadig hbdig hcdig hddig hhdig hldig
    exact findTuple_complete hp

theorem wrap64_of_range {z : Int} (h0 : 0 ≤ z) (h1 : z < 2 ^ 63) :
    wrap64 z = z := by
  unfold wrap64
  have h63 : (2 : Int) ^ 63 = 9223372036854775808 := by norm_num
  have h64 : (2 : Int) ^ 64 = 18446744073709551616 := by norm_num
  rw [h63] at h1
  rw [h63, h64]
  omega

theorem digitsToNat_le_of_port_le {h lo : List Char}
    (hr : 256 * digitsToNat h + digitsToNat lo ≤ maxInt64) :
    digitsToNat h ≤ maxInt64 ∧ digitsToNat lo ≤ maxInt64 := by
  unfold maxInt64 at hr ⊢
  omega

/-- C4 counterexample: the claim's port formula `hi*256+lo` fails once
the numbers leave the signed 64-bit range of Go's `int`: with
`hi = 36028797018963968` (2^55) and `lo = 0` the code computes
`256*hi` with 64-bit wrap-around, producing the port string
`-9223372036854775808` instead of `9223372036854775808`. -/
theorem claim_C4_counterexample :
    getAddressOfPasvResponse ("227 (1,2,3,4,36028797018963968,0)" ++ "\r\n").toList =
      .ok "1.2.3.4:-9223372036854775808" ∧
    ("1.2.3.4:-9223372036854775808" : String) ≠
      "1.2.3.4:" ++ toString (36028797018963968 * 256 + 0) := by
  constructor
  · rfl
  · decide

/-- C4 (amended): passive-address extraction succeeds exactly on the
replies containing a parenthesized 6-tuple of comma-separated decimal
numbers, reporting the protocol error otherwise; the selected tuple
`(a,b,c,d,hi,lo)` yields the address string `a.b.c.d` and the port
computed as `hi*256+lo` whenever that value fits Go's signed 64-bit
`int` (beyond it `Atoi` clamps at `2^63-1` and the multiplication
wraps modulo `2^64`); in particular
`"227 ... (0,0,0,0,0,0) ...\r\n"` yields `"0.0.0.0:0"` and
`"227 ... (127,12,0,1,1,2) ...\r\n"` yields `"127.12.0.1:258"`. -/
theorem claim_C4_amended :
    (∀ msg : List Char, (findTuple msg).isSome = true ↔ specContainsTuple msg) ∧
    (∀ msg : List Char, findTuple msg = none →
      getAddressOfPasvResponse msg = .error (errorMessage "address extraction" msg)) ∧
    (∀ (msg a b c d h lo : List Char), findTuple msg = some (a, b, c, d, h, lo) →
      getAddressOfPasvResponse msg =
        .ok (String.mk (a ++ ('.' :: (b ++ ('.' :: (c ++ ('.' :: d)))))) ++ ":" ++
          intToDecimalString (wrap64 (256 * atoi64 h + atoi64 lo)))) ∧
    (∀ (msg a b c d h lo : List Char), findTuple msg = some (a, b, c, d, h, lo) →
      256 * digitsToNat h + digitsToNat lo ≤ maxInt64 →
      getAddressOfPasvResponse msg =
        .ok (String.mk (a ++ ('.' :: (b ++ ('.' :: (c ++ ('.' :: d)))))) ++ ":" ++
          toString (256 * digitsToNat h + digitsToNat lo))) ∧
    getAddressOfPasvResponse "227 passive mode (0,0,0,0,0,0) \r\n".toList =
      .ok "0.0.0.0:0" ∧
    getAddressOfPasvResponse "227 passive mode (127,12,0,1,1,2) \r\n".toList =
      .ok "127.12.0.1:258" := by
  refine ⟨findTuple_isSome_iff, ?_, ?_, ?_, rfl, rfl⟩
  · intro msg hnone
    unfold getAddressOfPasvResponse
    rw [hnone]
  · intro msg a b c d h lo hsome
    unfold getAddressOfPasvResponse
    rw [hsome]
  · intro msg a b c d h lo hsome hr
    unfold getAddressOfPasvResponse
    rw [hsome]
    dsimp only
    obtain ⟨hh, hl⟩ := digitsToNat_le_of_port_le hr
    have hah : atoi64 h = (digitsToNat h : Int) := by unfold atoi64; rw [if_pos hh]
    have hal : atoi64 lo = (digitsToNat lo : Int) := by unfold atoi64; rw [if_pos hl]
    have hz : 256 * atoi64 h + atoi64 lo =
        ((256 * digitsToNat h + digitsToNat lo : Nat) : Int) := by
      rw [hah, hal]
      push_cast
      ring
    have hzr : wrap64 (256 * atoi64 h + atoi64 lo) =
        ((256 * digitsToNat h + digitsToNat lo : Nat) : Int) := by
      rw [hz]
      apply wrap64_of_range
      · exact Int.natCast_nonneg _
      · have hmax : (maxInt64 : Int) < 2 ^ 63 := by unfold maxInt64; norm_num
        calc ((256 * digitsToNat h + digitsToNat lo : Nat) : Int)
            ≤ (maxInt64 : Int) := by exact_mod_cast hr
          _ < 2 ^ 63 := hmax
    rw [hzr]
    have hstr : intToDecimalString ((256 * digitsToNat h + digitsToNat lo : Nat) : Int) =
        toString (256 * digitsToNat h + digitsToNat lo) := by
      unfold intToDecimalString
      rw [if_neg (by exact_mod_cast Int.not_lt.mpr (Int.natCast_nonneg _))]
      congr 1
    rw [hstr]

/-- C4 witness. -/
theorem claim_C4_witness :
    getAddressOfPasvResponse "227 =(1,2,3,4,5,6).\r\n".toList =
      .ok (String.mk (['1'] ++ ('.' :: (['2'] ++ ('.' :: (['3'] ++ ('.' :: ['4'])))))) ++
        ":" ++ toString (256 * digitsToNat ['5'] + digitsToNat ['6'])) := by
  exact claim_C4_amended.2.2.2.1 "227 =(1,2,3,4,5,6).\r\n".toList
    ['1'] ['2'] ['3'] ['4'] ['5'] ['6'] rfl (by decide)

/-! ## Session state and data-transfer orchestration (ftp.go)

The session state is the stored transfer representation.  Each
operation is a pure function of the state and of the outcomes of its
transport interactions (replies on the control connection, dial /
copy / close errors on the data connection); it returns the command
lines sent, the new state, whether a data connection was opened and
whether it was closed before returning, and the operation's result
(`none` is success).  The data payload carried by the data connection
is not modelled; the claims are about control flow only. -/

def transferASCII : String := "ASCII"

def transferBinary : String := "binary"

/-- The outcomes of the transport interactions of one data-bearing
operation, in the order the code consumes them. -/
structure TransferEnv where
  typeReply : Except String (List Char)
  pasvReply : Except String (List Char)
  dialErr : Option String
  sendErr : Option String
  reply1 : Except String (List Char)
  copyErr : Option String
  closeErr : Option String
  reply2 : Except String (List Char)

/-- What a data-bearing operation did. -/
structure TransferResult where
  msgs : List String
  finalType : String
  opened : Bool
  closed : Bool
  result : Option String

/-- Go `setTransferTypeTo`: no command if the representation already
matches; otherwise `execute(commandOk, "TYPE", symbol)`, updating the
stored representation only when it succeeds.  Returns (lines sent,
new representation, result). -/
def setTransferTypeTo (st t symbol : String)
    (reply : Except String (List Char)) : List String × String × Option String :=
  if st = t then ([], st, none)
  else
    match reply with
    | .error e => ([sendMsg ["TYPE", symbol]], st, some e)
    | .ok r =>
      if extractCode r = commandOk then ([sendMsg ["TYPE", symbol]], t, none)
      else ([sendMsg ["TYPE", symbol]], st, some (errorMessage "TYPE" r))

/-- Go `enterPassiveMode`: `executeGetResponse(enteringPassiveMode,
"PASV")`, then address extraction, then the dial.  Returns (lines
sent, failure if any). -/
def enterPassiveMode (pasvReply : Except String (List Char))
    (dialErr : Option String) : List String × Option String :=
  ([sendMsg ["PASV"]],
   match pasvReply with
   | .error e => some e
   | .ok r =>
     if extractCode r = enteringPassiveMode then
       match getAddressOfPasvResponse r with
       | .error e => some e
       | .ok _ => dialErr
     else some (errorMessage "PASV" r))

/-- The shared shape of Go `Download` and Go `upload` (current
revision): binary representation, passive mode, the data command,
first reply, byte copy, explicit `dataConn.Close()` with its error
checked, second reply.  `dataConn.Close()` is also called on each
failure exit after the data connection was opened. -/
def dataTransfer (st cmd cmdLine : String) (env : TransferEnv) : TransferResult :=
  let s1 := setTransferTypeTo st transferBinary "I" env.typeReply
  match s1.2.2 with
  | some e => ⟨s1.1, s1.2.1, false, false, some e⟩
  | none =>
    let p := enterPassiveMode env.pasvReply env.dialErr
    match p.2 with
    | some e => ⟨s1.1 ++ p.1, s1.2.1, false, false, some e⟩
    | none =>
      match env.sendErr with
      | some e => ⟨s1.1 ++ p.1 ++ [cmdLine], s1.2.1, true, true, some e⟩
      | none =>
        match env.reply1 with
        | .error e => ⟨s1.1 ++ p.1 ++ [cmdLine], s1.2.1, true, true, some e⟩
        | .ok r1 =>
          if respOk (extractCode r1) then
            match env.copyErr with
            | some e => ⟨s1.1 ++ p.1 ++ [cmdLine], s1.2.1, true, true, some e⟩
            | none =>
              match env.closeErr with
              | some e => ⟨s1.1 ++ p.1 ++ [cmdLine], s1.2.1, true, true, some e⟩
              | none =>
                match env.reply2 with
                | .error e => ⟨s1.1 ++ p.1 ++ [cmdLine], s1.2.1, true, true, some e⟩
                | .ok r2 =>
                  if respOk (extractCode r2) then
                    ⟨s1.1 ++ p.1 ++ [cmdLine], s1.2.1, true, true, none⟩
                  else
                    ⟨s1.1 ++ p.1 ++ [cmdLine], s1.2.1, true, true,
                      some (errorMessage cmd r2)⟩
          else ⟨s1.1 ++ p.1 ++ [cmdLine], s1.2.1, true, true,
            some (errorMessage cmd r1)⟩

/-- Go `Download`: `RETR` sent through plain `send` (a space before
the path even when it is empty). -/
def Download (st path : String) (env : TransferEnv) : TransferResult :=
  dataTransfer st "RETR" (sendMsg ["RETR", path]) env

/-- Go `upload` (`STOR`/`STOU`/`APPE`): the command line through
`sendWithoutEmptyString`. -/
def upload (st cmd path : String) (env : TransferEnv) : TransferResult :=
  dataTransfer st cmd (sendWithoutEmptyStringMsg cmd path) env

/-- Go `readListCommandData` (`LIST`/`NLST`): ASCII representation,
`defer dataConn.Close()` (so the data connection is closed on every
exit after it was opened and the close error is ignored), no explicit
close step before the second reply. -/
def readListCommandData (st cmd path : String) (env : TransferEnv) : TransferResult :=
  let s1 := setTransferTypeTo st transferASCII "A" env.typeReply
  match s1.2.2 with
  | some e => ⟨s1.1, s1.2.1, false, false, some e⟩
  | none =>
    let p := enterPassiveMode env.pasvReply env.dialErr
    match p.2 with
    | some e => ⟨s1.1 ++ p.1, s1.2.1, false, false, some e⟩
    | none =>
      match env.sendErr with
      | some e => ⟨s1.1 ++ p.1 ++ [sendWithoutEmptyStringMsg cmd path], s1.2.1,
          true, true, some e⟩
      | none =>
        match env.reply1 with
        | .error e => ⟨s1.1 ++ p.1 ++ [sendWithoutEmptyStringMsg cmd path], s1.2.1,
            true, true, some e⟩
        | .ok r1 =>
          if respOk (extractCode r1) then
            match env.copyErr with
            | some e => ⟨s1.1 ++ p.1 ++ [sendWithoutEmptyStringMsg cmd path], s1.2.1,
                true, true, some e⟩
            | none =>
              match env.reply2 with
              | .error e => ⟨s1.1 ++ p.1 ++ [sendWithoutEmptyStringMsg cmd path],
                  s1.2.1, true, true, some e⟩
              | .ok r2 =>
                if respOk (extractCode r2) then
                  ⟨s1.1 ++ p.1 ++ [sendWithoutEmptyStringMsg cmd path], s1.2.1,
                    true, true, none⟩
                else
                  ⟨s1.1 ++ p.1 ++ [sendWithoutEmptyStringMsg cmd path], s1.2.1,
                    true, true, some (errorMessage cmd r2)⟩
          else ⟨s1.1 ++ p.1 ++ [sendWithoutEmptyStringMsg cmd path], s1.2.1,
            true, true, some (errorMessage cmd r1)⟩

/-- Go `newConnection`: the session starts with `transferASCII`; the
greeting must carry `serviceReadyForNewUser`.  Returns the initial
transfer representation of the session. -/
def newConnection (greeting : Except String (List Char)) : Except String String :=
  match greeting with
  | .error e => .error e
  | .ok r =>
    if extractCode r = serviceReadyForNewUser then .ok transferASCII
    else .error (errorMessage "connect" r)

/-- Go `Abort`: 225/226 succeed; 426 reads one extra reply which must
carry 226; anything else is a protocol error.  Returns (result,
whether a second reply was read). -/
def Abort (r1 : Except String (List Char)) (r2 : Except String (List Char)) :
    Option String × Bool :=
  match r1 with
  | .error e => (some e, false)
  | .ok resp =>
    if extractCode resp = noTransferInProgress ∨
        extractCode resp = closingDataConnection then (none, false)
    else if extractCode resp = connectionClosed_TransferAborter then
      match r2 with
      | .error e => (some e, true)
      | .ok resp2 =>
        if extractCode resp2 = closingDataConnection then (none, true)
        else (some (errorMessage "ABOR" resp2), true)
    else (some (errorMessage "ABOR" resp), false)

theorem dataTransfer_result_none_iff (st cmd cmdLine : String) (env : TransferEnv) :
    (dataTransfer st cmd cmdLine env).result = none ↔
    ((setTransferTypeTo st transferBinary "I" env.typeReply).2.2 = none ∧
     (enterPassiveMode env.pasvReply env.dialErr).2 = none ∧
     env.sendErr = none ∧
     (∃ r1, env.reply1 = .ok r1 ∧ respOk (extractCode r1) = true) ∧
     env.copyErr = none ∧ env.closeErr = none ∧
     (∃ r2, env.reply2 = .ok r2 ∧ respOk (extractCode r2) = true)) := by
  simp only [dataTransfer]
  rcases hs1 : (setTransferTypeTo st transferBinary "I" env.typeReply).2.2 with _ | e1
  · rcases hp : (enterPassiveMode env.pasvReply env.dialErr).2 with _ | e2
    · rcases hse : env.sendErr with _ | e3
      · rcases hr1 : env.reply1 with e4 | r1
        · simp [hr1]
        · cases hok1 : respOk (extractCode r1)
          · simp [hr1, hok1]
          · rcases hce : env.copyErr with _ | e5
            · rcases hcl : env.closeErr with _ | e6
              · rcases hr2 : env.reply2 with e7 | r2
                · simp [hr1, hok1, hr2]
                · cases hok2 : respOk (extractCode r2)
                  · simp [hr1, hok1, hr2, hok2]
                  · simp [hr1, hok1, hr2, hok2]
              · simp [hr1, hok1, hcl]
            · simp [hr1, hok1, hce]
      · simp [hse]
    · simp [hp]
  · simp [hs1]

theorem dataTransfer_closed_eq_opened (st cmd cmdLine : String) (env : TransferEnv) :
    (dataTransfer st cmd cmdLine env).closed = (dataTransfer st cmd cmdLine env).opened := by
  simp only [dataTransfer]
  repeat first | rfl | split

theorem readListCommandData_closed_eq_opened (st cmd path : String) (env : TransferEnv) :
    (readListCommandData st cmd path env).closed =
      (readListCommandData st cmd path env).opened := by
  simp only [readListCommandData]
  repeat first | rfl | split

/-- C5: a download or upload whose byte copy succeeded still fails
whenever the final confirmation reply carries a non-success code, and
success is only ever reported when the final reply arrived and carried
a success code. -/
theorem claim_C5_final_reply :
    (∀ (st path : String) (env : TransferEnv) (r2 : List Char),
      env.reply2 = .ok r2 → respOk (extractCode r2) = false →
      (Download st path env).result ≠ none) ∧
    (∀ (st path : String) (env : TransferEnv),
      (Download st path env).result = none →
      ∃ r2, env.reply2 = .ok r2 ∧ respOk (extractCode r2) = true) ∧
    (∀ (st cmd path : String) (env : TransferEnv) (r2 : List Char),
      env.reply2 = .ok r2 → respOk (extractCode r2) = false →
      (upload st cmd path env).result ≠ none) ∧
    (∀ (st cmd path : String) (env : TransferEnv),
      (upload st cmd path env).result = none →
      ∃ r2, env.reply2 = .ok r2 ∧ respOk (extractCode r2) = true) := by
  have key : ∀ (st cmd cmdLine : String) (env : TransferEnv),
      (dataTransfer st cmd cmdLine env).result = none →
      ∃ r2, env.reply2 = .ok r2 ∧ respOk (extractCode r2) = true := by
    intro st cmd cmdLine env h
    exact ((dataTransfer_result_none_iff st cmd cmdLine env).mp h).2.2.2.2.2.2
  have keyne : ∀ (st cmd cmdLine : String) (env : TransferEnv) (r2 : List Char),
      env.reply2 = .ok r2 → respOk (extractCode r2) = false →
      (dataTransfer st cmd cmdLine env).result ≠ none := by
    intro st cmd cmdLine env r2 hr2 hbad hnone
    obtain ⟨r2', hr2', hok⟩ := key st cmd cmdLine env hnone
    rw [hr2] at hr2'
    have : r2 = r2' := by injection hr2'
    rw [← this] at hok
    rw [hok] at hbad
    cases hbad
  exact ⟨fun st path env r2 h1 h2 => keyne st "RETR" (sendMsg ["RETR", path]) env r2 h1 h2,
    fun st path env h => key st "RETR" (sendMsg ["RETR", path]) env h,
    fun st cmd path env r2 h1 h2 =>
      keyne st cmd (sendWithoutEmptyStringMsg cmd path) env r2 h1 h2,
    fun st cmd path env h => key st cmd (sendWithoutEmptyStringMsg cmd path) env h⟩

/-- C5 witness. -/
theorem claim_C5_witness :
    (Download transferBinary "f.txt"
      ⟨.ok "200 ok\r\n".toList, .ok "227 (1,2,3,4,5,6)\r\n".toList, none, none,
       .ok "150 opening\r\n".toList, none, none,
       .ok "550 failed\r\n".toList⟩).result ≠ none := by
  exact claim_C5_final_reply.1 transferBinary "f.txt"
    ⟨.ok "200 ok\r\n".toList, .ok "227 (1,2,3,4,5,6)\r\n".toList, none, none,
     .ok "150 opening\r\n".toList, none, none, .ok "550 failed\r\n".toList⟩
    "550 failed\r\n".toList rfl (by decide)

/-- C6: in every data-bearing operation (detailed listing and name
listing via `readListCommandData`, `Download`, and `upload` covering
store, store-unique and append) and on every exit path, a data
connection that was opened for the transfer has been closed when the
operation returns. -/
theorem claim_C6_data_conn_closed :
    (∀ (st path : String) (env : TransferEnv),
      (Download st path env).opened = true → (Download st path env).closed = true) ∧
    (∀ (st cmd path : String) (env : TransferEnv),
      (upload st cmd path env).opened = true → (upload st cmd path env).closed = true) ∧
    (∀ (st cmd path : String) (env : TransferEnv),
      (readListCommandData st cmd path env).opened = true →
      (readListCommandData st cmd path env).closed = true) := by
  refine ⟨fun st path env h => ?_, fun st cmd path env h => ?_,
    fun st cmd path env h => ?_⟩
  · rw [Download, dataTransfer_closed_eq_opened]
    rw [Download] at h
    exact h
  · rw [upload, dataTransfer_closed_eq_opened]
    rw [upload] at h
    exact h
  · rw [readListCommandData_closed_eq_opened]
    exact h

/-- C6 witness. -/
theorem claim_C6_witness :
    (Download transferBinary "f.txt"
      ⟨.ok "200 ok\r\n".toList, .ok "227 (1,2,3,4,5,6)\r\n".toList, none, some "boom",
       .ok "150 opening\r\n".toList, none, none, .ok "226 done\r\n".toList⟩).closed =
      true := by
  exact claim_C6_data_conn_closed.1 transferBinary "f.txt"
    ⟨.ok "200 ok\r\n".toList, .ok "227 (1,2,3,4,5,6)\r\n".toList, none, some "boom",
     .ok "150 opening\r\n".toList, none, none, .ok "226 done\r\n".toList⟩ (by decide)

/-- C7: `Abort` succeeds exactly on a 225 or 226 first reply, or on a
426 first reply followed by a 226 second reply; the second reply is
read exactly when the first carries 426; any other first or second
code yields the `ABOR` protocol error. -/
theorem claim_C7_abort :
    (∀ (resp : List Char) (r2 : Except String (List Char)),
      ((Abort (.ok resp) r2).1 = none ↔
        (extractCode resp = noTransferInProgress ∨
         extractCode resp = closingDataConnection) ∨
        (extractCode resp = connectionClosed_TransferAborter ∧
         ∃ resp2, r2 = .ok resp2 ∧ extractCode resp2 = closingDataConnection))) ∧
    (∀ (resp : List Char) (r2 : Except String (List Char)),
      (Abort (.ok resp) r2).2 =
        decide (extractCode resp = connectionClosed_TransferAborter)) ∧
    (∀ (resp resp2 : List Char),
      extractCode resp = connectionClosed_TransferAborter →
      extractCode resp2 ≠ closingDataConnection →
      (Abort (.ok resp) (.ok resp2)).1 = some (errorMessage "ABOR" resp2)) ∧
    (∀ (resp : List Char) (r2 : Except String (List Char)),
      extractCode resp ≠ noTransferInProgress →
      extractCode resp ≠ closingDataConnection →
      extractCode resp ≠ connectionClosed_TransferAborter →
      (Abort (.ok resp) r2).1 = some (errorMessage "ABOR" resp)) := by
  refine ⟨fun resp r2 => ?_, fun resp r2 => ?_, fun resp resp2 h2 hne => ?_,
    fun resp r2 hn1 hn2 hn3 => ?_⟩
  · unfold Abort
    dsimp only
    by_cases h1 : extractCode resp = noTransferInProgress ∨
        extractCode resp = closingDataConnection
    · rw [if_pos h1]
      simp [h1]
    · rw [if_neg h1]
      by_cases h2 : extractCode resp = connectionClosed_TransferAborter
      · rw [if_pos h2]
        rcases r2 with e | resp2
        · simp [h1, h2]
          decide
        · dsimp only
          split_ifs with h3
          · simp [h1, h2, h3]
          · simp [h1, h2, h3]
            decide
      · rw [if_neg h2]
        simp [h1, h2]
  · unfold Abort
    dsimp only
    by_cases h1 : extractCode resp = noTransferInProgress ∨
        extractCode resp = closingDataConnection
    · rw [if_pos h1]
      have hne : extractCode resp ≠ connectionClosed_TransferAborter := by
        rcases h1 with h1 | h1 <;> rw [h1] <;> decide
      rw [decide_eq_false hne]
    · rw [if_neg h1]
      by_cases h2 : extractCode resp = connectionClosed_TransferAborter
      · rw [if_pos h2, decide_eq_true h2]
        rcases r2 with e | resp2
        · rfl
        · dsimp only
          split_ifs <;> rfl
      · rw [if_neg h2, decide_eq_false h2]
  · unfold Abort
    dsimp only
    have h1 : ¬ (extractCode resp = noTransferInProgress ∨
        extractCode resp = closingDataConnection) := by
      rw [h2]
      decide
    rw [if_neg h1, if_pos h2, if_neg hne]
  · unfold Abort
    dsimp only
    rw [if_neg (by tauto), if_neg hn3]

/-- C7 witness. -/
theorem claim_C7_witness :
    (Abort (.ok "426 aborted\r\n".toList) (.ok "226 closing\r\n".toList)).1 = none ∧
    (Abort (.ok "426 aborted\r\n".toList) (.ok "226 closing\r\n".toList)).2 = true ∧
    (Abort (.ok "500 bad\r\n".toList) (.ok "226 closing\r\n".toList)).1 =
      some (errorMessage "ABOR" "500 bad\r\n".toList) := by
  refine ⟨?_, ?_, ?_⟩
  · exact (claim_C7_abort.1 "426 aborted\r\n".toList
      (.ok "226 closing\r\n".toList)).mpr
      (Or.inr ⟨by decide, "226 closing\r\n".toList, rfl, by decide⟩)
  · rw [claim_C7_abort.2.1 "426 aborted\r\n".toList (.ok "226 closing\r\n".toList)]
    decide
  · exact claim_C7_abort.2.2.2 "500 bad\r\n".toList (.ok "226 closing\r\n".toList)
      (by decide) (by decide) (by decide)

theorem setTransferTypeTo_self (st sym : String)
    (reply : Except String (List Char)) :
    setTransferTypeTo st st sym reply = ([], st, none) := by
  unfold setTransferTypeTo
  rw [if_pos rfl]

/-- C8: the representation switch sends no command at all when the
stored representation already equals the requested one; otherwise it
sends exactly one TYPE command and updates the stored representation
only if that command succeeds; and the data-bearing operations leave
the stored representation exactly as their representation-switch step
left it (no other step changes it). -/
theorem claim_C8_type_switch :
    (∀ (st sym : String) (reply : Except String (List Char)),
      setTransferTypeTo st st sym reply = ([], st, none)) ∧
    (∀ (st t sym : String) (reply : Except String (List Char)), st ≠ t →
      (setTransferTypeTo st t sym reply).1 = [sendMsg ["TYPE", sym]]) ∧
    (∀ (st t sym : String) (r : List Char), st ≠ t → extractCode r = commandOk →
      setTransferTypeTo st t sym (.ok r) = ([sendMsg ["TYPE", sym]], t, none)) ∧
    (∀ (st t sym : String) (r : List Char), st ≠ t → extractCode r ≠ commandOk →
      setTransferTypeTo st t sym (.ok r) =
        ([sendMsg ["TYPE", sym]], st, some (errorMessage "TYPE" r))) ∧
    (∀ (st t sym e : String), st ≠ t →
      setTransferTypeTo st t sym (.error e) = ([sendMsg ["TYPE", sym]], st, some e)) ∧
    (∀ (st path : String) (env : TransferEnv),
      (Download st path env).finalType =
        (setTransferTypeTo st transferBinary "I" env.typeReply).2.1) ∧
    (∀ (st cmd path : String) (env : TransferEnv),
      (upload st cmd path env).finalType =
        (setTransferTypeTo st transferBinary "I" env.typeReply).2.1) ∧
    (∀ (st cmd path : String) (env : TransferEnv),
      (readListCommandData st cmd path env).finalType =
        (setTransferTypeTo st transferASCII "A" env.typeReply).2.1) := by
  refine ⟨setTransferTypeTo_self, fun st t sym reply h => ?_,
    fun st t sym r h hc => ?_, fun st t sym r h hc => ?_, fun st t sym e h => ?_,
    fun st path env => ?_, fun st cmd path env => ?_, fun st cmd path env => ?_⟩
  · unfold setTransferTypeTo
    rw [if_neg h]
    rcases reply with e | r
    · rfl
    · dsimp only
      split_ifs <;> rfl
  · unfold setTransferTypeTo
    rw [if_neg h]
    dsimp only
    rw [if_pos hc]
  · unfold setTransferTypeTo
    rw [if_neg h]
    dsimp only
    rw [if_neg hc]
  · unfold setTransferTypeTo
    rw [if_neg h]
  · simp only [Download, dataTransfer]
    repeat first | rfl | split
  · simp only [upload, dataTransfer]
    repeat first | rfl | split
  · simp only [readListCommandData]
    repeat first | rfl | split

/-- C8 witness. -/
theorem claim_C8_witness :
    setTransferTypeTo "binary" "binary" "I" (.error "boom") = ([], "binary", none) ∧
    setTransferTypeTo "ASCII" "binary" "I" (.ok "200 ok\r\n".toList) =
      ([sendMsg ["TYPE", "I"]], "binary", none) ∧
    setTransferTypeTo "ASCII" "binary" "I" (.ok "500 bad\r\n".toList) =
      ([sendMsg ["TYPE", "I"]], "ASCII",
        some (errorMessage "TYPE" "500 bad\r\n".toList)) := by
  refine ⟨claim_C8_type_switch.1 "binary" "I" (.error "boom"), ?_, ?_⟩
  · exact claim_C8_type_switch.2.2.1 "ASCII" "binary" "I" "200 ok\r\n".toList
      (by decide) (by decide)
  · exact claim_C8_type_switch.2.2.2.1 "ASCII" "binary" "I" "500 bad\r\n".toList
      (by decide) (by decide)

/-- C9: a session created by a successful connect handshake starts in
the ASCII representation; on such a fresh session a listing sends no
TYPE command — its first command line is already PASV — while a
download or upload whose TYPE command succeeds sends exactly one TYPE
command followed directly by PASV. -/
theorem claim_C9_fresh_session :
    (∀ (g : Except String (List Char)) (st : String),
      newConnection g = .ok st → st = transferASCII) ∧
    (∀ (cmd path : String) (env : TransferEnv),
      (readListCommandData transferASCII cmd path env).msgs.take 1 =
        [sendMsg ["PASV"]]) ∧
    (∀ (path : String) (env : TransferEnv) (r : List Char),
      env.typeReply = .ok r → extractCode r = commandOk →
      (Download transferASCII path env).msgs.take 2 =
        [sendMsg ["TYPE", "I"], sendMsg ["PASV"]]) ∧
    (∀ (cmd path : String) (env : TransferEnv) (r : List Char),
      env.typeReply = .ok r → extractCode r = commandOk →
      (upload transferASCII cmd path env).msgs.take 2 =
        [sendMsg ["TYPE", "I"], sendMsg ["PASV"]]) := by
  have hbin : ∀ (env : TransferEnv) (r : List Char), env.typeReply = .ok r →
      extractCode r = commandOk →
      setTransferTypeTo transferASCII transferBinary "I" env.typeReply =
        ([sendMsg ["TYPE", "I"]], transferBinary, none) := by
    intro env r htr hc
    rw [htr]
    unfold setTransferTypeTo
    rw [if_neg (by decide)]
    dsimp only
    rw [if_pos hc]
  refine ⟨fun g st h => ?_, fun cmd path env => ?_,
    fun path env r htr hc => ?_, fun cmd path env r htr hc => ?_⟩
  · unfold newConnection at h
    rcases g with e | r
    · cases h
    · dsimp only at h
      split_ifs at h
      have := Except.ok.inj h
      exact this.symm
  · simp only [readListCommandData, setTransferTypeTo_self]
    repeat first | rfl | split
  · simp only [Download, dataTransfer, hbin env r htr hc]
    repeat first | rfl | split
  · simp only [upload, dataTransfer, hbin env r htr hc]
    repeat first | rfl | split

/-- C9 witness. -/
theorem claim_C9_witness :
    (Download transferASCII "f.txt"
      ⟨.ok "200 ok\r\n".toList, .ok "227 (1,2,3,4,5,6)\r\n".toList, none, none,
       .ok "150 opening\r\n".toList, none, none,
       .ok "226 done\r\n".toList⟩).msgs.take 2 =
      [sendMsg ["TYPE", "I"], sendMsg ["PASV"]] := by
  exact claim_C9_fresh_session.2.2.1 "f.txt"
    ⟨.ok "200 ok\r\n".toList, .ok "227 (1,2,3,4,5,6)\r\n".toList, none, none,
     .ok "150 opening\r\n".toList, none, none, .ok "226 done\r\n".toList⟩
    "200 ok\r\n".toList rfl (by decide)

end Ftp
